import Mathlib

/-!
Verification of the onnx-mlir constant-propagation engine
(src/Transform/ONNX/ConstProp.cpp) against its natural-language
specification.

The engine's tensor values (ElementsAttr) are embedded as flat row-major
buffers of integers paired with a shape, matching the WideNum buffers the
source operates on.  Machine arithmetic at the wide type is modelled with
Lean Int; the C++ integer division x / d is modelled with Int.tdiv
(truncation toward zero).  Functions from ConstProp.cpp are translated
directly; builder operations that live outside the given sources
(OnnxElementsAttrBuilder.reduce / transform / split) are modelled from the
specification as indicated in their doc comments.
-/

namespace ConstProp

/-- Tensor models an ElementsAttr: a shape and a flat row-major buffer of
wide numbers (modelled as Int). -/
structure Tensor where
  shape : List Nat
  data : List Int
  deriving Repr, DecidableEq

/-- Number of elements of a shaped type: the product of the dimensions
(getNumberOfElements / ElementsAttr::size). -/
def Tensor.size (t : Tensor) : Nat :=
  t.shape.prod

/-- Well-formedness: the flat buffer has exactly as many entries as the
shape declares. -/
def Tensor.wf (t : Tensor) : Prop :=
  t.data.length = t.shape.prod

instance (t : Tensor) : Decidable t.wf := by
  unfold Tensor.wf
  infer_instance

/-- Rank of a tensor (getRank). -/
def Tensor.rank (t : Tensor) : Nat :=
  t.shape.length

/-- Strides for a row-major shape, translated from getStrides in
ConstProp.cpp: the stride of an axis is the product of all later
dimensions, so the last axis has stride 1. -/
def getStrides : List Nat → List Nat
  | [] => []
  | _ :: ds => ds.prod :: getStrides ds

/-- Linear access index, translated from getLinearAccessIndex in
ConstProp.cpp: the dot product of a multi-index with the strides,
iterating over the strides. -/
def getLinearAccessIndex : List Int → List Nat → Int
  | _, [] => 0
  | [], _ :: _ => 0
  | i :: is, s :: ss => i * (s : Int) + getLinearAccessIndex is ss

/-- Row-major flattening of a Nat multi-index against a shape; agrees with
getLinearAccessIndex on the shape's strides. -/
def flattenIdx : List Nat → List Nat → Nat
  | _, [] => 0
  | [], _ :: _ => 0
  | _ :: ds, c :: cs => c * ds.prod + flattenIdx ds cs

/-- Validity of a multi-index for a shape: same length, every coordinate
below its dimension. -/
def validIdx : List Nat → List Nat → Prop
  | [], [] => True
  | d :: ds, c :: cs => c < d ∧ validIdx ds cs
  | _, _ => False

instance instDecValidIdx : (s i : List Nat) → Decidable (validIdx s i)
  | [], [] => isTrue trivial
  | [], _ :: _ => isFalse id
  | _ :: _, [] => isFalse id
  | d :: ds, c :: cs =>
    have : Decidable (validIdx ds cs) := instDecValidIdx ds cs
    inferInstanceAs (Decidable (c < d ∧ validIdx ds cs))

/-- All multi-indices of a shape, enumerated in row-major order. -/
def allIndices : List Nat → List (List Nat)
  | [] => [[]]
  | d :: ds => (List.range d).flatMap (fun c => (allIndices ds).map (c :: ·))

/-- Element of a tensor at a multi-index (row-major read of the flat
buffer). -/
def Tensor.get (t : Tensor) (idx : List Nat) : Int :=
  t.data.getD (flattenIdx t.shape idx) 0

/-- Overwrite of a contiguous region of a flat buffer starting at pos,
modelling std::copy_n into output.begin() + pos. -/
def writeAt (l : List Int) (pos : Nat) (vs : List Int) : List Int :=
  l.take pos ++ vs ++ l.drop (pos + vs.length)

/-- Sequential application of a list of (position, values) writes to a
buffer, in order. -/
def applyWrites (init : List Int) (ws : List (Nat × List Int)) : List Int :=
  ws.foldl (fun acc w => writeAt acc w.1 w.2) init

/-- Whether a (position, values) write covers flat position j. -/
def covers (w : Nat × List Int) (j : Nat) : Prop :=
  w.1 ≤ j ∧ j < w.1 + w.2.length

instance (w : Nat × List Int) (j : Nat) : Decidable (covers w j) := by
  unfold covers
  infer_instance

/-- Last write of a write list that covers flat position j, if any: the
write whose value persists at j after sequential application. -/
def lastCoveringWrite (ws : List (Nat × List Int)) (j : Nat) : Option (Nat × List Int) :=
  (ws.filter (fun w => decide (covers w j))).getLast?

/-- Outcome of running one rewrite pattern, distinguishing a successful
fold, a pattern that declines to match (return failure after the guards),
a diagnostic with pass failure (emitError and signalPassFailure), and a
hard abort of compilation (llvm_unreachable / a failed assert). -/
inductive Outcome (α : Type) where
  | ok (value : α)
  | noMatch
  | diagFail
  | abortComp
  deriving Repr, DecidableEq

/-- Whether an outcome is a successful fold. -/
def Outcome.isOk {α : Type} : Outcome α → Bool
  | .ok _ => true
  | _ => false

/-- ReduceKind names the five Reduce* operators that
ConstPropReduceAxesRange is instantiated with. -/
inductive ReduceKind where
  | sum
  | prod
  | min
  | max
  | mean
  deriving Repr, DecidableEq

/-- Element-wise combiner for each reduction at the wide integer type,
modelling elementwiseBinaryOpCombiner: Add for ReduceSum (and for the sum
step of ReduceMean), Mul for ReduceProd, Min, Max. -/
def combFor : ReduceKind → Int → Int → Int
  | .sum, a, b => a + b
  | .mean, a, b => a + b
  | .prod, a, b => a * b
  | .min, a, b => Min.min a b
  | .max, a, b => Max.max a b

/-- Translation of getSIntAttr (ConstProp.cpp lines 275-278): an optional
integer attribute read with a default. -/
def getSIntAttr (attr : Option Int) (deflt : Int) : Int :=
  attr.getD deflt

/-- Translation of getIdentity (ConstProp.cpp lines 280-293): the Add
reduction has identity 0 and the Mul reduction identity 1; for Min, Max
and Mean the function is llvm_unreachable (modelled as none), following
NumPy which does not support empty tensors for them. -/
def getIdentity : ReduceKind → Option Int
  | .sum => some 0
  | .prod => some 1
  | _ => none

/-- Modelled from the spec: output shape of the missing
OnnxElementsAttrBuilder.reduce (spec 4.2.8) — with keepdims the reduced
axes are kept as size-1 dimensions, otherwise they are removed.  The Nat
argument is the absolute axis of the list head. -/
def reducedShapeAux (axs : List Nat) (keepdims : Bool) : Nat → List Nat → List Nat
  | _, [] => []
  | i, d :: ds =>
    if axs.contains i then
      if keepdims then 1 :: reducedShapeAux axs keepdims (i + 1) ds
      else reducedShapeAux axs keepdims (i + 1) ds
    else d :: reducedShapeAux axs keepdims (i + 1) ds

/-- Extents of the reduced axes of a shape, in axis order. -/
def extentsAux (axs : List Nat) : Nat → List Nat → List Nat
  | _, [] => []
  | i, d :: ds =>
    if axs.contains i then d :: extentsAux axs (i + 1) ds
    else extentsAux axs (i + 1) ds

/-- Extents of the reduced axes, starting from axis 0. -/
def reducedExtents (axs : List Nat) (shape : List Nat) : List Nat :=
  extentsAux axs 0 shape

/-- Projection of a full multi-index to the output multi-index of a
reduction: coordinates on reduced axes become 0 under keepdims and are
dropped otherwise. -/
def keptIdxAux (axs : List Nat) (keepdims : Bool) : Nat → List Nat → List Nat
  | _, [] => []
  | i, c :: cs =>
    if axs.contains i then
      if keepdims then 0 :: keptIdxAux axs keepdims (i + 1) cs
      else keptIdxAux axs keepdims (i + 1) cs
    else c :: keptIdxAux axs keepdims (i + 1) cs

/-- Modelled from the spec: the missing OnnxElementsAttrBuilder.reduce
(spec 4.2.8).  For each output index, the source elements whose
non-reduced coordinates agree with it are combined by a left fold in
row-major order; keepdims keeps reduced axes as size-1 dimensions. -/
def reduceT (f : Int → Int → Int) (t : Tensor) (axs : List Nat) (keepdims : Bool) : Tensor :=
  let outShape := reducedShapeAux axs keepdims 0 t.shape
  ⟨outShape,
    (allIndices outShape).map (fun o =>
      match ((allIndices t.shape).filter
          (fun i => keptIdxAux axs keepdims 0 i == o)).map t.get with
      | [] => 0
      | v :: vs => vs.foldl f v)⟩

/-- Translation of divideBy (ConstProp.cpp lines 295-301) at the wide
integer type: C++ integer division truncates toward zero, which is
Int.tdiv. -/
def divideBy (denominator : Int) (x : Int) : Int :=
  x.tdiv denominator

/-- ReduceMean branch of ConstPropReduceAxesRange (ConstProp.cpp lines
342-351): sum = reduce with the Add combiner, denominator =
data.size() / sum.size(), result = transform(sum, divideBy denominator). -/
def reduceMeanT (t : Tensor) (axs : List Nat) (keepdims : Bool) : Tensor :=
  let sum := reduceT (combFor .sum) t axs keepdims
  let denominator : Nat := t.size / sum.size
  ⟨sum.shape, sum.data.map (divideBy (denominator : Int))⟩

/-- Reduction result for a non-empty tensor and non-empty axes
(ConstProp.cpp lines 342-355): ReduceMean goes through the sum-and-divide
path, the other kinds reduce with their combiner. -/
def reduceResult (kind : ReduceKind) (t : Tensor) (axs : List Nat) (keepdims : Bool) : Tensor :=
  match kind with
  | .mean => reduceMeanT t axs keepdims
  | k => reduceT (combFor k) t axs keepdims

/-- Absolute-axes loop of ConstPropReduceAxesRange (ConstProp.cpp lines
310-322) with its accumulated list: each axis must satisfy
-rank ≤ axis < rank (assert), a negative axis gets rank added, and a
duplicate axis is an assert failure; failed asserts are modelled as
none. -/
def absAxesGo (rank : Nat) (acc : List Nat) : List Int → Option (List Nat)
  | [] => some acc
  | a :: rest =>
    if -(rank : Int) ≤ a ∧ a < (rank : Int) then
      let axis : Nat := (if a < 0 then a + (rank : Int) else a).toNat
      if acc.contains axis then none
      else absAxesGo rank (acc ++ [axis]) rest
    else none

/-- Absolute axes of an axes list for a given rank. -/
def absAxes (rank : Nat) (axes : List Int) : Option (List Nat) :=
  absAxesGo rank [] axes

/-- Empty-axes handling of ConstPropReduceAxesRange (ConstProp.cpp lines
324-329): when the absolute axes are empty and the noop_with_empty_axes
attribute (default 0) is 0, every axis 0..rank-1 is reduced. -/
def effectiveAxes (absolute : List Nat) (noopAttr : Option Int) (rank : Nat) : List Nat :=
  if absolute.isEmpty ∧ getSIntAttr noopAttr 0 = 0 then List.range rank else absolute

/-- Translation of ConstPropReduceAxesRange (ConstProp.cpp lines 303-360).
replacingShape is the declared shape of the value being replaced, used by
the empty-tensor identity branch, which fills a constant of that shape
with the identity.  The axis asserts and the llvm_unreachable inside
getIdentity abort compilation. -/
def constPropReduceAxesRange (kind : ReduceKind) (t : Tensor) (axes : List Int)
    (noopAttr keepdimsAttr : Option Int) (replacingShape : List Nat) : Outcome Tensor :=
  match absAxes t.rank axes with
  | none => .abortComp
  | some absolute =>
    let axs := effectiveAxes absolute noopAttr t.rank
    if axs.isEmpty then .ok t
    else if t.size = 0 then
      match getIdentity kind with
      | some v => .ok ⟨replacingShape, List.replicate replacingShape.prod v⟩
      | none => .abortComp
    else
      .ok (reduceResult kind t axs (getSIntAttr keepdimsAttr 1 != 0))

/-- Translation of ScatterNDImpl (ConstProp.cpp lines 555-585) as the list
of buffer writes it performs: indices_nd is the last dimension of the
indices shape, there are n_slices index tuples taken in row-major order
of the indices tensor, each dotted with the leading indices_nd data
strides to give a flat position, where slice_size elements of updates are
copied.  A negative position (an out-of-range C++ buffer write) is
clamped by toNat. -/
def scatterWrites (dataShape indicesShape updatesShape : List Nat)
    (indices updates : List Int) : List (Nat × List Int) :=
  let indices_nd := indicesShape.getLastD 0
  let outer := indicesShape.dropLast
  let n_slices := outer.prod
  let slice_size := (updatesShape.drop outer.length).prod
  let sliceStrides := (getStrides dataShape).take indices_nd
  (List.range n_slices).map (fun i =>
    let idxs := (indices.drop (i * indices_nd)).take indices_nd
    let pos := getLinearAccessIndex idxs sliceStrides
    (pos.toNat, (updates.drop (i * slice_size)).take slice_size))

/-- ScatterNDImpl output buffer: a copy of data with the writes applied in
order. -/
def scatterNDImpl (data indicesT updatesT : Tensor) : List Int :=
  applyWrites data.data
    (scatterWrites data.shape indicesT.shape updatesT.shape indicesT.data updatesT.data)

/-- Translation of ConstPropGatherImpl (ConstProp.cpp lines 783-808) as
the list of buffer writes it performs: for index number m with value idx
(normalised by adding axisSize when negative), for each outer block b,
len elements of the input starting at b*inputStride + adjusted*len are
copied to output position b*outputStride + m*len.  The outer loop runs
while the output offset is below the output size in steps of
outputStride, i.e. outputSize / outputStride times.  A negative adjusted
index (an out-of-range C++ buffer read) is clamped by toNat. -/
def gatherWrites (input : Tensor) (outputShape : List Nat) (axis : Nat)
    (indices : List Int) : List (Nat × List Int) :=
  let axisSize := input.shape.getD axis 0
  let inputStride := (input.shape.drop axis).prod
  let len := inputStride / axisSize
  let outputStride := (outputShape.drop axis).prod
  let outerCount := outputShape.prod / outputStride
  indices.enum.flatMap (fun mi =>
    let adjusted := if mi.2 < 0 then mi.2 + (axisSize : Int) else mi.2
    (List.range outerCount).map (fun b =>
      (b * outputStride + mi.1 * len,
        (input.data.drop (b * inputStride + adjusted.toNat * len)).take len)))

/-- ConstPropGatherImpl output buffer: the gather writes applied to the
output buffer (fromWideNums allocates it; zero-initialised here). -/
def constPropGatherImpl (input : Tensor) (outputShape : List Nat) (axis : Nat)
    (indices : List Int) : List Int :=
  applyWrites (List.replicate outputShape.prod 0)
    (gatherWrites input outputShape axis indices)

/-- Translation of ConstPropGather (ConstProp.cpp lines 810-830): the axis
attribute is normalised by adding the input rank when negative and
ConstPropGatherImpl fills a buffer of the replacing value's shape.  The
function has no failure path: index values are never range-checked. -/
def constPropGather (input indicesT : Tensor) (outputShape : List Nat)
    (axisAttr : Int) : Outcome Tensor :=
  let axis := if axisAttr < 0 then axisAttr + (input.rank : Int) else axisAttr
  .ok ⟨outputShape, constPropGatherImpl input outputShape axis.toNat indicesT.data⟩

/-- Modelled from the spec: one slab of the missing
OnnxElementsAttrBuilder.split (spec 4.2.9) — the contiguous slab of len
entries of the split axis starting at offset off, rebased to the part. -/
def slabAt (t : Tensor) (axis off len : Nat) : Tensor :=
  let outShape := t.shape.set axis len
  ⟨outShape, (allIndices outShape).map (fun i => t.get (i.set axis (i.getD axis 0 + off)))⟩

/-- Modelled from the spec: the missing OnnxElementsAttrBuilder.split
(spec 4.2.9) — one Elements per size, each a contiguous slab along the
axis; off accumulates the start of the next slab. -/
def splitT (t : Tensor) (axis : Nat) : List Nat → Nat → List Tensor
  | [], _ => []
  | sz :: rest, off => slabAt t axis off sz :: splitT t axis rest (off + sz)

/-- Translation of ConstPropSplitPatternCommon (ConstProp.cpp lines
443-489): a non-constant input is a match failure; with a split attribute
the numResults sizes are read from it and must sum to the axis size
(assert), without one the axis size must be divisible by numResults
(assert) and every part gets splitAxisSize / numResults; the builder then
splits into contiguous slabs.  Failed asserts abort compilation; a
negative attribute size is clamped by toNat when passed to the builder. -/
def constPropSplitCommon (numResults : Nat) (input : Tensor) (inputIsConst : Bool)
    (splitAxis : Nat) (splitAttr : Option (List Int)) : Outcome (List Tensor) :=
  if inputIsConst then
    let splitAxisSize : Nat := input.shape.getD splitAxis 0
    match splitAttr with
    | some attr =>
      let splitSizes := (List.range numResults).map (fun i => attr.getD i 0)
      if (splitAxisSize : Int) = splitSizes.sum then
        .ok (splitT input splitAxis (splitSizes.map Int.toNat) 0)
      else .abortComp
    | none =>
      if splitAxisSize % numResults = 0 then
        .ok (splitT input splitAxis (List.replicate numResults (splitAxisSize / numResults)) 0)
      else .abortComp
  else .noMatch

/-- Shape of the ONNXSplitOp split operand as seen by the pattern: a dense
constant, the None value, or anything else (a dynamic split operand). -/
inductive SplitOperand where
  | constOperand (sizes : List Int)
  | noneOperand
  | dynamicOperand
  deriving Repr, DecidableEq

/-- Translation of ConstPropSplitPattern::matchAndRewrite (ConstProp.cpp
lines 495-512): a constant split operand becomes the sizes attribute, a
None operand leaves it absent, and any other split operand hits
llvm_unreachable "dynamic split not yet supported", aborting
compilation. -/
def constPropSplitPattern (numResults : Nat) (input : Tensor) (inputIsConst : Bool)
    (splitAxis : Nat) (splitOperand : SplitOperand) : Outcome (List Tensor) :=
  match splitOperand with
  | .constOperand sizes =>
    constPropSplitCommon numResults input inputIsConst splitAxis (some sizes)
  | .noneOperand => constPropSplitCommon numResults input inputIsConst splitAxis none
  | .dynamicOperand => .abortComp

/-- Ranked tensor type of the host IR for the purposes of the shape
contract: a list of dimensions, a negative entry standing for a dynamic
dimension, plus an element-type tag. -/
structure MType where
  dims : List Int
  elemTag : Nat
  deriving Repr, DecidableEq

/-- Translation of createReplacingConstantOp (ConstProp.cpp lines
100-106): the new constant op is created with the type of the
replacingValue argument. -/
def createReplacingConstantOpType (replacingType : MType) : MType :=
  replacingType

/-- ConstPropScatterNDPattern (ConstProp.cpp lines 610-624) passes
scatterNdOp.getData() as the replacingValue of
createReplacingConstantOp, so the constant that replaces the ScatterND
result is typed with the data operand's type, not with the result's
declared type. -/
def scatterNdConstantType (dataType : MType) (_resultType : MType) : MType :=
  createReplacingConstantOpType dataType

/-- Translation of ConstPropCounters::count (ConstProp.cpp lines 64-69)
on the map modelled as an association list from category name to
(invocations, input element count): the named entry is bumped by one
invocation and by the given element count, and is created on first
use. -/
def countEvent : List (String × Nat × Nat) → String → Nat → List (String × Nat × Nat)
  | [], name, elms => [(name, 1, elms)]
  | (n, inv, e) :: rest, name, elms =>
    if n = name then (n, inv + 1, e + elms) :: rest
    else (n, inv, e) :: countEvent rest name elms

/-- The counter map after a sequence of (name, element count) count
calls, starting from the initially empty process-wide map. -/
def applyEvents (events : List (String × Nat)) : List (String × Nat × Nat) :=
  events.foldl (fun m ev => countEvent m ev.1 ev.2) []

/-- Sum of the per-entry invocation counts of the map. -/
def sumInvocations (m : List (String × Nat × Nat)) : Nat :=
  (m.map (fun e => e.2.1)).sum

/-- Sum of the per-entry input element counts of the map. -/
def sumInputElms (m : List (String × Nat × Nat)) : Nat :=
  (m.map (fun e => e.2.2)).sum

/-- Header of ConstPropCounters::dump (ConstProp.cpp lines 71-82):
number of entries, total invocations and total input elements, computed
by iterating the map. -/
def dumpHeader (m : List (String × Nat × Nat)) : Nat × Nat × Nat :=
  (m.length, sumInvocations m, sumInputElms m)

/-- Report gate of ConstPropONNXToONNXPass::runOnOperation (ConstProp.cpp
lines 888-889): the cumulative dump is rendered iff the pass was
constructed with report = true. -/
def runPassReport (report : Bool) (events : List (String × Nat)) : Option (Nat × Nat × Nat) :=
  if report then some (dumpHeader (applyEvents events)) else none

/-- Modelled from the spec: the default argument of
createConstPropONNXToONNXPass is declared outside the given sources
(Passes.hpp); per spec section 6.3 the report flag defaults to false. -/
def constPropReportDefault : Bool :=
  false

/-- Elements counted by the Split fold (ConstProp.cpp line 451): only the
data input is passed to ConstPropCounters::count; the split-sizes
constant operand is not counted. -/
def splitCountedElms (input : Tensor) (_splitSizesOperand : Tensor) : Nat :=
  input.size

/-- Counter behaviour of ConstPropSlice (ConstProp.cpp lines 686-698):
count("Slice", data) runs first; when the shape helper fails to compute
the slice parameters, an error diagnostic is emitted and no constant is
produced, yet the counter update remains. -/
def constPropSliceCounted (shapeHelperOk : Bool) (dataElms : Nat)
    (m : List (String × Nat × Nat)) : List (String × Nat × Nat) × Outcome Unit :=
  let m2 := countEvent m "Slice" dataElms
  if shapeHelperOk then (m2, .ok ()) else (m2, .diagFail)

/-!
Theorems.  First come infrastructure lemmas about the embedding, then one
theorem per claim of the specification review, each with its witness or
counterexample.
-/

theorem allIndices_length (s : List Nat) : (allIndices s).length = s.prod := by
  induction s with
  | nil => rfl
  | cons d ds ih =>
    simp only [allIndices, List.length_flatMap, Function.comp_def, List.length_map,
      ih, List.map_const', List.sum_replicate, smul_eq_mul, List.prod_cons,
      List.length_range]

theorem flattenIdx_lt : ∀ (s i : List Nat), validIdx s i → flattenIdx s i < s.prod
  | [], [], _ => by simp [flattenIdx]
  | [], _ :: _, h => absurd h (by simp [validIdx])
  | _ :: _, [], h => absurd h (by simp [validIdx])
  | d :: ds, c :: cs, h => by
    obtain ⟨hc, hv⟩ := h
    have ih := flattenIdx_lt ds cs hv
    simp only [flattenIdx, List.prod_cons]
    calc c * ds.prod + flattenIdx ds cs < c * ds.prod + ds.prod := by omega
    _ = (c + 1) * ds.prod := by ring
    _ ≤ d * ds.prod := Nat.mul_le_mul_right _ hc

theorem flatMap_uniform_getElem? {α β : Type} (g : α → List β) (L : Nat)
    (hL : ∀ a, (g a).length = L) :
    ∀ (l : List α) (c r : Nat) (a : α), l[c]? = some a → r < L →
      (l.flatMap g)[c * L + r]? = (g a)[r]? := by
  intro l
  induction l with
  | nil => intro c r a h _; simp at h
  | cons x xs ih =>
    intro c r a h hr
    cases c with
    | zero =>
      simp only [List.getElem?_cons_zero, Option.some.injEq] at h
      subst h
      rw [List.flatMap_cons, List.getElem?_append]
      simp [hL, hr]
    | succ c =>
      simp only [List.getElem?_cons_succ] at h
      rw [List.flatMap_cons, List.getElem?_append]
      have h1 : ¬((c + 1) * L + r < (g x).length) := by
        rw [hL]; nlinarith
      rw [if_neg h1, hL]
      have h2 : (c + 1) * L + r - L = c * L + r := by ring_nf; omega
      rw [h2]
      exact ih c r a h hr

theorem allIndices_getElem? :
    ∀ (s i : List Nat), validIdx s i → (allIndices s)[flattenIdx s i]? = some i
  | [], [], _ => by simp [allIndices, flattenIdx]
  | [], _ :: _, h => absurd h (by simp [validIdx])
  | _ :: _, [], h => absurd h (by simp [validIdx])
  | d :: ds, c :: cs, h => by
    obtain ⟨hc, hv⟩ := h
    have hblock : ∀ c' : Nat, (((allIndices ds).map (c' :: ·)).length) = ds.prod := by
      intro c'; simp [allIndices_length]
    have := flatMap_uniform_getElem? (fun c' => (allIndices ds).map (c' :: ·)) ds.prod
      hblock (List.range d) c (flattenIdx ds cs) c (List.getElem?_range hc)
      (flattenIdx_lt ds cs hv)
    simp only [allIndices, flattenIdx]
    rw [this, List.getElem?_map, allIndices_getElem? ds cs hv]
    rfl

theorem Tensor.get_mk_map (s : List Nat) (f : List Nat → Int) (i : List Nat)
    (h : validIdx s i) : Tensor.get ⟨s, (allIndices s).map f⟩ i = f i := by
  unfold Tensor.get
  simp [List.getD_eq_getElem?_getD, List.getElem?_map, allIndices_getElem? s i h]

theorem writeAt_length (l vs : List Int) (pos : Nat) (h : pos + vs.length ≤ l.length) :
    (writeAt l pos vs).length = l.length := by
  simp [writeAt]
  omega

theorem writeAt_getElem? (l vs : List Int) (pos j : Nat) (h : pos + vs.length ≤ l.length) :
    (writeAt l pos vs)[j]? =
      if pos ≤ j ∧ j < pos + vs.length then vs[j - pos]? else l[j]? := by
  have htake : (l.take pos).length = pos := by simp; omega
  unfold writeAt
  rw [List.append_assoc, List.getElem?_append, htake]
  rcases Nat.lt_or_ge j pos with hj | hj
  · rw [if_pos hj, List.getElem?_take, if_pos hj, if_neg (by omega)]
  · rw [if_neg (by omega), List.getElem?_append]
    rcases Nat.lt_or_ge (j - pos) vs.length with hw | hw
    · rw [if_pos hw, if_pos (by omega)]
    · rw [if_neg (by omega), if_neg (by omega), List.getElem?_drop]
      congr 1
      omega

theorem applyWrites_cons (init : List Int) (w : Nat × List Int) (ws : List (Nat × List Int)) :
    applyWrites init (w :: ws) = applyWrites (writeAt init w.1 w.2) ws := rfl

theorem applyWrites_length (ws : List (Nat × List Int)) :
    ∀ init : List Int, (∀ w ∈ ws, w.1 + w.2.length ≤ init.length) →
      (applyWrites init ws).length = init.length := by
  induction ws with
  | nil => intro init _; rfl
  | cons w ws ih =>
    intro init h
    have hw : (writeAt init w.1 w.2).length = init.length :=
      writeAt_length _ _ _ (h w (List.mem_cons_self _ _))
    rw [applyWrites_cons]
    rw [ih (writeAt init w.1 w.2) (fun w' hw' => hw ▸ h w' (List.mem_cons_of_mem _ hw'))]
    exact hw

theorem applyWrites_getElem? (ws : List (Nat × List Int)) :
    ∀ (init : List Int) (j : Nat), (∀ w ∈ ws, w.1 + w.2.length ≤ init.length) →
      (applyWrites init ws)[j]? =
        (lastCoveringWrite ws j).elim init[j]? (fun w => w.2[j - w.1]?) := by
  induction ws with
  | nil => intro init j _; simp [applyWrites, lastCoveringWrite]
  | cons w ws ih =>
    intro init j h
    have hw : (writeAt init w.1 w.2).length = init.length :=
      writeAt_length _ _ _ (h w (List.mem_cons_self _ _))
    rw [applyWrites_cons,
      ih (writeAt init w.1 w.2) j (fun w' hw' => hw ▸ h w' (List.mem_cons_of_mem _ hw'))]
    unfold lastCoveringWrite
    rw [List.filter_cons]
    by_cases hc : covers w j
    · rw [if_pos (by simpa using hc)]
      rcases hlast : (ws.filter (fun w' => decide (covers w' j))).getLast? with _ | wl
      · have : ws.filter (fun w' => decide (covers w' j)) = [] := by
          simpa using hlast
        simp only [this, List.getLast?_singleton, Option.elim]
        rw [writeAt_getElem? _ _ _ _ (h w (List.mem_cons_self _ _))]
        rw [if_pos ⟨hc.1, hc.2⟩]
      · have : (w :: ws.filter (fun w' => decide (covers w' j))) =
            [w] ++ ws.filter (fun w' => decide (covers w' j)) := rfl
        rw [this, List.getLast?_append, hlast]
        simp
    · rw [if_neg (by simpa using hc)]
      rcases hlast : (ws.filter (fun w' => decide (covers w' j))).getLast? with _ | wl
      · simp only [Option.elim]
        rw [writeAt_getElem? _ _ _ _ (h w (List.mem_cons_self _ _))]
        rw [if_neg (by intro hcon; exact hc ⟨hcon.1, hcon.2⟩)]
      · simp

theorem mul_add_lt_unique (L k₁ s₁ k₂ s₂ : Nat) (h₁ : s₁ < L) (h₂ : s₂ < L)
    (he : k₁ * L + s₁ = k₂ * L + s₂) : k₁ = k₂ ∧ s₁ = s₂ := by
  have hL : 0 < L := by omega
  have e₁ : (k₁ * L + s₁) / L = k₁ := by
    rw [mul_comm, Nat.mul_add_div hL, Nat.div_eq_of_lt h₁]
    omega
  have e₂ : (k₂ * L + s₂) / L = k₂ := by
    rw [mul_comm, Nat.mul_add_div hL, Nat.div_eq_of_lt h₂]
    omega
  have hk : k₁ = k₂ := by rw [← e₁, ← e₂, he]
  subst hk
  exact ⟨rfl, by omega⟩

theorem decompose_unique (len nI b₁ m₁ r₁ b₂ m₂ r₂ : Nat)
    (hm₁ : m₁ < nI) (hr₁ : r₁ < len) (hm₂ : m₂ < nI) (hr₂ : r₂ < len)
    (h : b₁ * (nI * len) + m₁ * len + r₁ = b₂ * (nI * len) + m₂ * len + r₂) :
    b₁ = b₂ ∧ m₁ = m₂ ∧ r₁ = r₂ := by
  have h' : (b₁ * nI + m₁) * len + r₁ = (b₂ * nI + m₂) * len + r₂ := by
    calc (b₁ * nI + m₁) * len + r₁ = b₁ * (nI * len) + m₁ * len + r₁ := by ring
    _ = b₂ * (nI * len) + m₂ * len + r₂ := h
    _ = (b₂ * nI + m₂) * len + r₂ := by ring
  obtain ⟨hk, hr⟩ := mul_add_lt_unique len _ _ _ _ hr₁ hr₂ h'
  obtain ⟨hb, hm⟩ := mul_add_lt_unique nI _ _ _ _ hm₁ hm₂ hk
  exact ⟨hb, hm, hr⟩

theorem filter_eq_replicate_of_unique {α : Type} (p : α → Bool) (w : α) :
    ∀ l : List α, (∀ x ∈ l, p x = true → x = w) →
      l.filter p = List.replicate (l.countP p) w := by
  intro l
  induction l with
  | nil => intro _; rfl
  | cons x xs ih =>
    intro h
    have hrest := ih (fun y hy => h y (List.mem_cons_of_mem _ hy))
    by_cases hx : p x = true
    · have hxw := h x (List.mem_cons_self x xs) hx
      subst hxw
      rw [List.filter_cons_of_pos hx, List.countP_cons_of_pos _ _ hx, hrest,
        List.replicate_succ]
    · rw [List.filter_cons_of_neg (by simpa using hx),
        List.countP_cons_of_neg _ _ (by simpa using hx), hrest]

theorem getLast?_replicate_pos {α : Type} (w : α) :
    ∀ k : Nat, 0 < k → (List.replicate k w).getLast? = some w := by
  intro k
  induction k with
  | zero => intro h; omega
  | succ k ih =>
    intro _
    rcases Nat.eq_zero_or_pos k with hk | hk
    · subst hk; simp
    · rcases k with _ | k'
      · omega
      · rw [List.replicate_succ, List.replicate_succ, List.getLast?_cons_cons,
          ← List.replicate_succ]
        exact ih hk

theorem reducedShape_extents_prod (axs : List Nat) (kd : Bool) :
    ∀ (s : List Nat) (n : Nat),
      (reducedShapeAux axs kd n s).prod * (extentsAux axs n s).prod = s.prod := by
  intro s
  induction s with
  | nil => intro n; simp [reducedShapeAux, extentsAux]
  | cons d ds ih =>
    intro n
    by_cases hn : axs.contains n
    · cases kd with
      | true =>
        simp only [reducedShapeAux, extentsAux, hn, if_true, List.prod_cons, one_mul]
        rw [← ih (n + 1)]
        ring
      | false =>
        simp only [reducedShapeAux, extentsAux, hn, if_true, Bool.false_eq_true,
          if_false, List.prod_cons]
        rw [← ih (n + 1)]
        ring
    · simp only [reducedShapeAux, extentsAux, hn, Bool.false_eq_true, if_false,
        List.prod_cons]
      rw [← ih (n + 1)]
      ring

theorem reducedShape_keepdims (axs : List Nat) :
    ∀ (s : List Nat) (n : Nat),
      reducedShapeAux axs true n s =
        ((List.range' n s.length).zip s).map (fun p => if axs.contains p.1 then 1 else p.2) := by
  intro s
  induction s with
  | nil => intro n; rfl
  | cons d ds ih =>
    intro n
    simp only [reducedShapeAux, List.length_cons, List.range'_succ, List.zip_cons_cons,
      List.map_cons, ih (n + 1)]
    by_cases hn : n ∈ axs
    · simp [hn]
    · simp [hn]

theorem reducedShape_removed (axs : List Nat) :
    ∀ (s : List Nat) (n : Nat),
      reducedShapeAux axs false n s =
        (((List.range' n s.length).zip s).filter (fun p => !axs.contains p.1)).map
          (fun p => p.2) := by
  intro s
  induction s with
  | nil => intro n; rfl
  | cons d ds ih =>
    intro n
    simp only [reducedShapeAux, List.length_cons, List.range'_succ, List.zip_cons_cons,
      List.filter_cons, ih (n + 1)]
    by_cases hn : n ∈ axs
    · simp [hn]
    · simp [hn]

theorem flattenIdx_zeros : ∀ s : List Nat, flattenIdx s (List.replicate s.length 0) = 0
  | [] => rfl
  | d :: ds => by
    simp only [List.length_cons, List.replicate_succ, flattenIdx, flattenIdx_zeros ds]
    omega

theorem lin_take_strides_eq_flatten :
    ∀ (s : List Nat) (idxs : List Nat), idxs.length ≤ s.length →
      getLinearAccessIndex (idxs.map Int.ofNat) ((getStrides s).take idxs.length) =
        (flattenIdx s (idxs ++ List.replicate (s.length - idxs.length) 0) : Int) := by
  intro s
  induction s with
  | nil =>
    intro idxs h
    rw [List.length_nil, Nat.le_zero] at h
    have : idxs = [] := List.length_eq_zero.mp h
    subst this
    rfl
  | cons d ds ih =>
    intro idxs h
    cases idxs with
    | nil =>
      simp only [List.map_nil, List.take_zero, List.nil_append, List.length_nil,
        List.length_cons, Nat.sub_zero, List.replicate_succ, flattenIdx,
        flattenIdx_zeros ds, getLinearAccessIndex]
      simp
    | cons c cs =>
      have hlen : (d :: ds).length - (c :: cs).length = ds.length - cs.length := by simp
      simp only [List.map_cons, getStrides, List.length_cons, List.take_succ_cons,
        getLinearAccessIndex, List.cons_append, flattenIdx, hlen]
      rw [ih cs (by simpa using h), Nat.cast_add, Nat.cast_mul]
      simp only [Int.ofNat_eq_natCast, Nat.add_sub_add_left, Nat.succ_sub_succ]
      rfl

theorem countEvent_sums (name : String) (elms : Nat) :
    ∀ m : List (String × Nat × Nat),
      sumInvocations (countEvent m name elms) = sumInvocations m + 1 ∧
      sumInputElms (countEvent m name elms) = sumInputElms m + elms := by
  intro m
  induction m with
  | nil => simp [countEvent, sumInvocations, sumInputElms]
  | cons e rest ih =>
    obtain ⟨n, inv, el⟩ := e
    by_cases hn : n = name
    · simp only [countEvent, if_pos hn, sumInvocations, sumInputElms, List.map_cons,
        List.sum_cons]
      omega
    · simp only [countEvent, if_neg hn, sumInvocations, sumInputElms, List.map_cons,
        List.sum_cons]
      have := ih
      simp only [sumInvocations, sumInputElms] at this
      omega

theorem applyEventsAux_sums (events : List (String × Nat)) :
    ∀ m : List (String × Nat × Nat),
      sumInvocations (events.foldl (fun acc ev => countEvent acc ev.1 ev.2) m) =
        sumInvocations m + events.length ∧
      sumInputElms (events.foldl (fun acc ev => countEvent acc ev.1 ev.2) m) =
        sumInputElms m + (events.map Prod.snd).sum := by
  induction events with
  | nil => intro m; simp
  | cons ev evs ih =>
    intro m
    simp only [List.foldl_cons, List.length_cons, List.map_cons, List.sum_cons]
    obtain ⟨h1, h2⟩ := ih (countEvent m ev.1 ev.2)
    obtain ⟨g1, g2⟩ := countEvent_sums ev.1 ev.2 m
    constructor
    · rw [h1, g1]; omega
    · rw [h2, g2]; omega

theorem splitT_length (t : Tensor) (axis : Nat) :
    ∀ (szs : List Nat) (off : Nat), (splitT t axis szs off).length = szs.length := by
  intro szs
  induction szs with
  | nil => intro off; rfl
  | cons sz rest ih => intro off; simp [splitT, ih]

theorem splitT_getElem? (t : Tensor) (axis : Nat) :
    ∀ (szs : List Nat) (off p : Nat) (sz : Nat), szs[p]? = some sz →
      (splitT t axis szs off)[p]? = some (slabAt t axis (off + (szs.take p).sum) sz) := by
  intro szs
  induction szs with
  | nil => intro off p sz h; simp at h
  | cons s rest ih =>
    intro off p sz h
    cases p with
    | zero =>
      simp only [List.getElem?_cons_zero, Option.some.injEq] at h
      subst h
      simp [splitT]
    | succ p =>
      simp only [List.getElem?_cons_succ] at h
      have harg : off + (s + (rest.take p).sum) = off + s + (rest.take p).sum := by omega
      simp only [splitT, List.getElem?_cons_succ, List.take_succ_cons, List.sum_cons,
        harg]
      exact ih (off + s) p sz h

theorem slabAt_shape (t : Tensor) (axis off len : Nat) :
    (slabAt t axis off len).shape = t.shape.set axis len := rfl

theorem slabAt_get (t : Tensor) (axis off len : Nat) (i : List Nat)
    (h : validIdx (t.shape.set axis len) i) :
    (slabAt t axis off len).get i = t.get (i.set axis (i.getD axis 0 + off)) :=
  Tensor.get_mk_map _ _ i h

theorem reduceResult_shape (kind : ReduceKind) (t : Tensor) (axs : List Nat) (kd : Bool) :
    (reduceResult kind t axs kd).shape = reducedShapeAux axs kd 0 t.shape := by
  cases kind <;> rfl

/-- C6 counterexample: a ScatterND whose data operand has type tensor 4x4
while the replaced result's declared type has a dynamic leading dimension
(still a RankedTensorType, so the pattern fires).  The produced constant
carries the data operand's type, not the declared type of the value it
replaces, refuting the claim that they always coincide. -/
theorem claim_C6_counterexample :
    scatterNdConstantType ⟨[4, 4], 0⟩ ⟨[-1, 4], 0⟩ ≠ ⟨[-1, 4], 0⟩ := by
  decide

/-- C6, amended: every fold types its new constant with the replacingValue
passed to createReplacingConstantOp; for all folds except ScatterND that
value is the replaced op's result, so the types coincide, while
ConstPropScatterNDPattern passes the data operand, so the ScatterND
constant carries the data operand's type, which equals the replaced
result's declared type exactly when the two types agree. -/
theorem claim_C6_amended_shape_contract (replacingType dataType resultType : MType) :
    createReplacingConstantOpType replacingType = replacingType ∧
    scatterNdConstantType dataType resultType = dataType ∧
    (dataType = resultType → scatterNdConstantType dataType resultType = resultType) := by
  refine ⟨rfl, rfl, ?_⟩
  intro h
  rw [← h]
  rfl

/-- Witness for C6: concrete instantiation where the data and result types
agree, discharging the hypothesis of the last conjunct. -/
theorem claim_C6_amended_witness :
    scatterNdConstantType ⟨[4, 4], 0⟩ ⟨[4, 4], 0⟩ = ⟨[4, 4], 0⟩ :=
  (claim_C6_amended_shape_contract ⟨[4, 4], 0⟩ ⟨[4, 4], 0⟩ ⟨[4, 4], 0⟩).2.2 rfl

/-- C7 counterexample: the Split fold passes only its data input to
ConstPropCounters::count, so a split with a 4-element data tensor and a
2-element split-sizes constant operand is counted with 4 input elements,
not with the 6 elements of all its constant operands; and ConstPropSlice
updates the counter even when the shape helper fails and no fold is
produced, refuting "on every successful fold, and only then". -/
theorem claim_C7_counterexample :
    splitCountedElms ⟨[4], [1, 2, 3, 4]⟩ ⟨[2], [2, 2]⟩ ≠
      Tensor.size ⟨[4], [1, 2, 3, 4]⟩ + Tensor.size ⟨[2], [2, 2]⟩ ∧
    (constPropSliceCounted false 5 []).2 ≠ .ok () ∧
    (constPropSliceCounted false 5 []).1 = [("Slice", 1, 5)] := by
  refine ⟨by decide, by decide, rfl⟩

/-- C7, amended: each counter update bumps the named entry by one
invocation and by the element count the evaluator passes (Split and Slice
pass only their data input, and Slice counts even on its failing path);
after any event sequence the dump header totals equal the number of count
calls and the sum of the counted elements; the dump is rendered iff the
pass runs with report = true, whose default is false. -/
theorem claim_C7_amended_counters (events : List (String × Nat)) (report : Bool)
    (m : List (String × Nat × Nat)) (name : String) (elms : Nat) :
    sumInvocations (countEvent m name elms) = sumInvocations m + 1 ∧
    sumInputElms (countEvent m name elms) = sumInputElms m + elms ∧
    sumInvocations (applyEvents events) = events.length ∧
    sumInputElms (applyEvents events) = (events.map Prod.snd).sum ∧
    dumpHeader (applyEvents events) =
      ((applyEvents events).length, sumInvocations (applyEvents events),
        sumInputElms (applyEvents events)) ∧
    runPassReport report events =
      (if report then some (dumpHeader (applyEvents events)) else none) ∧
    runPassReport false events = none ∧
    constPropReportDefault = false := by
  obtain ⟨h1, h2⟩ := countEvent_sums name elms m
  obtain ⟨g1, g2⟩ := applyEventsAux_sums events []
  refine ⟨h1, h2, ?_, ?_, rfl, rfl, rfl, rfl⟩
  · simpa [applyEvents, sumInvocations] using g1
  · simpa [applyEvents, sumInputElms] using g2

/-- C8 counterexample: a Split whose split operand is neither a constant
nor None hits llvm_unreachable and aborts compilation; no diagnostic is
attached and the pass does not fail gracefully, refuting the claimed
diagnostic-and-pass-failure behaviour. -/
theorem claim_C8_counterexample :
    constPropSplitPattern 3 ⟨[6], [1, 2, 3, 4, 5, 6]⟩ true 0 .dynamicOperand =
      .abortComp ∧
    constPropSplitPattern 3 ⟨[6], [1, 2, 3, 4, 5, 6]⟩ true 0 .dynamicOperand ≠
      .diagFail := by
  exact ⟨rfl, by decide⟩

/-- C8, amended: a Split whose split-sizes operand is present but not a
compile-time constant aborts compilation through the llvm_unreachable
"dynamic split not yet supported"; the op is never silently mis-folded
(no ok result) and never silently skipped (no match failure), but the
surfaced error is a hard abort, not a diagnostic with pass failure. -/
theorem claim_C8_amended_dynamic_split (numResults : Nat) (input : Tensor)
    (inputIsConst : Bool) (splitAxis : Nat) :
    constPropSplitPattern numResults input inputIsConst splitAxis .dynamicOperand =
      .abortComp ∧
    (∀ ts : List Tensor,
      constPropSplitPattern numResults input inputIsConst splitAxis .dynamicOperand ≠
        .ok ts) ∧
    constPropSplitPattern numResults input inputIsConst splitAxis .dynamicOperand ≠
      .noMatch := by
  refine ⟨rfl, ?_, ?_⟩
  · intro ts h
    simp [constPropSplitPattern] at h
  · intro h
    simp [constPropSplitPattern] at h

/-- Witness for C7: three count calls with 6, 4 and 2 input elements give
total invocations 3 and total input elements 12. -/
theorem claim_C7_witness :
    sumInvocations (applyEvents [("Reduce", 6), ("Split", 4), ("Reduce", 2)]) = 3 ∧
    sumInputElms (applyEvents [("Reduce", 6), ("Split", 4), ("Reduce", 2)]) = 12 := by
  have h := claim_C7_amended_counters [("Reduce", 6), ("Split", 4), ("Reduce", 2)] true
    [] "Cast" 0
  refine ⟨?_, ?_⟩
  · rw [h.2.2.1]
    decide
  · rw [h.2.2.2.1]
    decide

/-- Witness for C8: the concrete dynamic split of a 6-element constant
aborts compilation. -/
theorem claim_C8_witness :
    constPropSplitPattern 3 ⟨[6], [1, 2, 3, 4, 5, 6]⟩ true 0 .dynamicOperand =
      .abortComp :=
  (claim_C8_amended_dynamic_split 3 ⟨[6], [1, 2, 3, 4, 5, 6]⟩ true 0).1

theorem isEmpty_false_of_ne_nil {l : List Nat} (h : l ≠ []) : l.isEmpty = false := by
  cases l with
  | nil => exact absurd rfl h
  | cons a as => rfl

/-- C5 counterexample: ReduceMin over the empty tensor of shape 2x0 with
axes = the singleton 1 ends in the llvm_unreachable branch of getIdentity
and aborts compilation; it is not surfaced as a diagnostic that makes the
pass fail, refuting the claimed error channel. -/
theorem claim_C5_counterexample :
    constPropReduceAxesRange .min ⟨[2, 0], []⟩ [1] none none [2, 1] = .abortComp ∧
    constPropReduceAxesRange .min ⟨[2, 0], []⟩ [1] none none [2, 1] ≠ .diagFail := by
  exact ⟨rfl, by decide⟩

/-- C5, amended: a reduction over an empty constant tensor with a
non-empty effective axes set produces, for ReduceSum, a constant of the
replacing value's shape filled with the identity 0 and, for ReduceProd,
one filled with the identity 1, while ReduceMin, ReduceMax and ReduceMean
abort compilation through llvm_unreachable — never a silently produced
value, but a hard abort rather than a compiler diagnostic. -/
theorem claim_C5_amended_empty_reduction (kind : ReduceKind) (t : Tensor)
    (axes : List Int) (noopAttr kdAttr : Option Int) (repl : List Nat)
    (absolute : List Nat)
    (habs : absAxes t.rank axes = some absolute)
    (hax : effectiveAxes absolute noopAttr t.rank ≠ [])
    (hempty : t.size = 0) :
    (kind = .sum →
      constPropReduceAxesRange kind t axes noopAttr kdAttr repl =
        .ok ⟨repl, List.replicate repl.prod 0⟩) ∧
    (kind = .prod →
      constPropReduceAxesRange kind t axes noopAttr kdAttr repl =
        .ok ⟨repl, List.replicate repl.prod 1⟩) ∧
    (kind = .min ∨ kind = .max ∨ kind = .mean →
      constPropReduceAxesRange kind t axes noopAttr kdAttr repl = .abortComp) := by
  have hne := isEmpty_false_of_ne_nil hax
  refine ⟨?_, ?_, ?_⟩
  · rintro rfl
    simp [constPropReduceAxesRange, habs, hne, hempty, getIdentity]
  · rintro rfl
    simp [constPropReduceAxesRange, habs, hne, hempty, getIdentity]
  · rintro (rfl | rfl | rfl) <;>
      simp [constPropReduceAxesRange, habs, hne, hempty, getIdentity]

/-- Witness for C5: the empty 2x0 tensor reduced along axis 1 with
ReduceSum yields the 2x1 constant filled with zeros. -/
theorem claim_C5_witness :
    constPropReduceAxesRange .sum ⟨[2, 0], []⟩ [1] none none [2, 1] =
      .ok ⟨[2, 1], [0, 0]⟩ := by
  have h := claim_C5_amended_empty_reduction .sum ⟨[2, 0], []⟩ [1] none none [2, 1] [1]
    (by decide) (by decide) (by decide)
  rw [h.1 rfl]
  decide

/-- C9: when Split is folded with an explicit sizes attribute, the sizes
read for the numResults outputs must sum to the input's extent at the
split axis — a violation fails the assert and aborts compilation; under
that precondition the abort is unreachable, the fold succeeds, and (by
the builder's split contract) each returned constant is the contiguous
slab of the input along the split axis starting at the sum of the earlier
sizes, whose elements are the input's elements with the axis coordinate
rebased by that offset, and whose shape carries its declared size. -/
theorem claim_C9_split_sizes_assert (numResults : Nat) (input : Tensor) (splitAxis : Nat)
    (attr : List Int) (off len : Nat) (i : List Nat) :
    (((List.range numResults).map (fun k => attr.getD k 0)).sum ≠
        (input.shape.getD splitAxis 0 : Int) →
      constPropSplitCommon numResults input true splitAxis (some attr) = .abortComp) ∧
    (((List.range numResults).map (fun k => attr.getD k 0)).sum =
        (input.shape.getD splitAxis 0 : Int) →
      constPropSplitCommon numResults input true splitAxis (some attr) =
        .ok (splitT input splitAxis
          (((List.range numResults).map (fun k => attr.getD k 0)).map Int.toNat) 0)) ∧
    (∀ (szs : List Nat) (p sz : Nat), szs[p]? = some sz →
      (splitT input splitAxis szs 0)[p]? =
        some (slabAt input splitAxis (szs.take p).sum sz)) ∧
    (validIdx (input.shape.set splitAxis len) i →
      (slabAt input splitAxis off len).get i =
        input.get (i.set splitAxis (i.getD splitAxis 0 + off))) ∧
    (slabAt input splitAxis off len).shape = input.shape.set splitAxis len := by
  refine ⟨?_, ?_, ?_, ?_, rfl⟩
  · intro h
    simp only [constPropSplitCommon, if_true]
    rw [if_neg (fun hc => h hc.symm)]
  · intro h
    simp only [constPropSplitCommon, if_true]
    rw [if_pos h.symm]
  · intro szs p sz h
    simpa using splitT_getElem? input splitAxis szs 0 p sz h
  · intro h
    exact slabAt_get input splitAxis off len i h

/-- Witness for C9: splitting the 3x2 tensor 1..6 along axis 0 with sizes
1 and 2 yields the declared slabs, and the second slab's element (1,0) is
the input's element (2,0). -/
theorem claim_C9_witness :
    constPropSplitCommon 2 ⟨[3, 2], [1, 2, 3, 4, 5, 6]⟩ true 0 (some [1, 2]) =
      .ok [⟨[1, 2], [1, 2]⟩, ⟨[2, 2], [3, 4, 5, 6]⟩] ∧
    (slabAt ⟨[3, 2], [1, 2, 3, 4, 5, 6]⟩ 0 1 2).get [1, 0] =
      Tensor.get ⟨[3, 2], [1, 2, 3, 4, 5, 6]⟩ [2, 0] := by
  have h := claim_C9_split_sizes_assert 2 ⟨[3, 2], [1, 2, 3, 4, 5, 6]⟩ 0 [1, 2] 1 2 [1, 0]
  constructor
  · rw [h.2.1 (by decide)]
    decide
  · rw [h.2.2.2.1 (by decide)]
    decide

/-- C10: when Split is folded with no sizes supplied, every one of the
numResults outputs is given the same size splitAxisSize / numResults
along the split axis, the axis size must be divisible by the number of
results (otherwise the assert aborts compilation and nothing is folded),
and each part is the contiguous slab starting at p times that size. -/
theorem claim_C10_split_default_sizes (numResults : Nat) (input : Tensor)
    (splitAxis : Nat) :
    (input.shape.getD splitAxis 0 % numResults = 0 →
      constPropSplitCommon numResults input true splitAxis none =
        .ok (splitT input splitAxis
          (List.replicate numResults (input.shape.getD splitAxis 0 / numResults)) 0)) ∧
    constPropSplitPattern numResults input true splitAxis .noneOperand =
      constPropSplitCommon numResults input true splitAxis none ∧
    (splitT input splitAxis
        (List.replicate numResults (input.shape.getD splitAxis 0 / numResults)) 0).length =
      numResults ∧
    (∀ p, p < numResults →
      (splitT input splitAxis
          (List.replicate numResults (input.shape.getD splitAxis 0 / numResults)) 0)[p]? =
        some (slabAt input splitAxis (p * (input.shape.getD splitAxis 0 / numResults))
          (input.shape.getD splitAxis 0 / numResults))) ∧
    (input.shape.getD splitAxis 0 % numResults ≠ 0 →
      constPropSplitCommon numResults input true splitAxis none = .abortComp) := by
  refine ⟨?_, rfl, ?_, ?_, ?_⟩
  · intro h
    simp only [constPropSplitCommon, if_true]
    rw [if_pos h]
  · rw [splitT_length]
    simp
  · intro p hp
    have hK : (List.replicate numResults
        (input.shape.getD splitAxis 0 / numResults))[p]? =
        some (input.shape.getD splitAxis 0 / numResults) := by
      simp [List.getElem?_replicate, hp]
    have hsum : ((List.replicate numResults
        (input.shape.getD splitAxis 0 / numResults)).take p).sum =
        p * (input.shape.getD splitAxis 0 / numResults) := by
      rw [List.take_replicate, List.sum_replicate, Nat.min_eq_left hp.le, smul_eq_mul]
    have := splitT_getElem? input splitAxis
      (List.replicate numResults (input.shape.getD splitAxis 0 / numResults)) 0 p
      (input.shape.getD splitAxis 0 / numResults) hK
    rw [this, hsum, Nat.zero_add]
  · intro h
    simp only [constPropSplitCommon, if_true]
    rw [if_neg h]

/-- Witness for C10: a 3-way split of the 6-element vector 1..6 with no
sizes gives three parts of size 2. -/
theorem claim_C10_witness :
    constPropSplitCommon 3 ⟨[6], [1, 2, 3, 4, 5, 6]⟩ true 0 none =
      .ok [⟨[2], [1, 2]⟩, ⟨[2], [3, 4]⟩, ⟨[2], [5, 6]⟩] ∧
    (splitT ⟨[6], [1, 2, 3, 4, 5, 6]⟩ 0 (List.replicate 3 2) 0)[1]? =
      some (slabAt ⟨[6], [1, 2, 3, 4, 5, 6]⟩ 0 2 2) := by
  have h := claim_C10_split_default_sizes 3 ⟨[6], [1, 2, 3, 4, 5, 6]⟩ 0
  constructor
  · rw [h.1 (by decide)]
    decide
  · have := h.2.2.2.1 1 (by decide)
    simpa using this

/-- C2: for every Reduce* fold, an empty axes list with
noop_with_empty_axes (default 0) equal to 0 makes the reduction run over
all dimensions 0..rank-1; a nonzero attribute with empty axes is a no-op
returning a constant holding exactly the input's elements; and keepdims
(default 1) decides whether the reduced axes appear as size-1 dimensions
(map to 1) or are removed (filtered out) in the result shape. -/
theorem claim_C2_axes_attrs (kind : ReduceKind) (t : Tensor)
    (noopAttr kdAttr : Option Int) (repl : List Nat) (axs : List Nat) :
    (getSIntAttr noopAttr 0 = 0 →
      effectiveAxes [] noopAttr t.rank = List.range t.rank ∧
      (0 < t.rank → 0 < t.size →
        constPropReduceAxesRange kind t [] noopAttr kdAttr repl =
          .ok (reduceResult kind t (List.range t.rank) (getSIntAttr kdAttr 1 != 0)))) ∧
    (getSIntAttr noopAttr 0 ≠ 0 →
      constPropReduceAxesRange kind t [] noopAttr kdAttr repl = .ok t) ∧
    (reduceResult kind t axs true).shape =
      ((List.range t.rank).zip t.shape).map
        (fun p => if axs.contains p.1 then 1 else p.2) ∧
    (reduceResult kind t axs false).shape =
      (((List.range t.rank).zip t.shape).filter (fun p => !axs.contains p.1)).map
        (fun p => p.2) := by
  have habs : absAxes t.rank [] = some [] := rfl
  refine ⟨?_, ?_, ?_, ?_⟩
  · intro hnoop
    have he : effectiveAxes [] noopAttr t.rank = List.range t.rank := by
      simp [effectiveAxes, hnoop]
    refine ⟨he, fun hrank hsize => ?_⟩
    have hrne : (List.range t.rank).isEmpty = false :=
      isEmpty_false_of_ne_nil (by simp [List.range_eq_nil]; omega)
    simp only [constPropReduceAxesRange, habs, he, hrne, Bool.false_eq_true, if_false]
    rw [if_neg (by omega)]
  · intro hnoop
    have he : effectiveAxes [] noopAttr t.rank = [] := by
      simp [effectiveAxes, hnoop]
    simp [constPropReduceAxesRange, habs, he]
  · rw [reduceResult_shape, List.range_eq_range']
    exact reducedShape_keepdims axs t.shape 0
  · rw [reduceResult_shape, List.range_eq_range']
    exact reducedShape_removed axs t.shape 0

/-- Witness for C2: summing the 2x3 tensor 1..6 with empty axes and
noop_with_empty_axes = 0 reduces all dimensions to the scalar 21, and with
noop_with_empty_axes = 1 it returns the input unchanged. -/
theorem claim_C2_witness :
    constPropReduceAxesRange .sum ⟨[2, 3], [1, 2, 3, 4, 5, 6]⟩ [] none (some 0) [] =
      .ok ⟨[], [21]⟩ ∧
    constPropReduceAxesRange .sum ⟨[2, 3], [1, 2, 3, 4, 5, 6]⟩ [] (some 1) (some 0)
      [2, 3] = .ok ⟨[2, 3], [1, 2, 3, 4, 5, 6]⟩ := by
  constructor
  · have h := (claim_C2_axes_attrs .sum ⟨[2, 3], [1, 2, 3, 4, 5, 6]⟩ none (some 0)
      [] []).1 (by decide)
    rw [h.2 (by decide) (by decide)]
    decide
  · exact (claim_C2_axes_attrs .sum ⟨[2, 3], [1, 2, 3, 4, 5, 6]⟩ (some 1) (some 0)
      [2, 3] []).2.1 (by decide)

/-- C1: a folded ReduceMean over a non-empty tensor with a non-empty
effective axes set equals the ReduceSum over those axes with the same
keepdims, followed by element-wise division of each sum by the integer
denominator data.size() / sum.size() at the data's (wide integer) element
type, and that denominator equals the product of the reduced extents. -/
theorem claim_C1_reduceMean_sum_div (t : Tensor) (axes : List Int)
    (noopAttr kdAttr : Option Int) (repl : List Nat) (absolute : List Nat)
    (habs : absAxes t.rank axes = some absolute)
    (hax : effectiveAxes absolute noopAttr t.rank ≠ [])
    (hne : 0 < t.size) :
    constPropReduceAxesRange .mean t axes noopAttr kdAttr repl =
      .ok ⟨(reduceT (combFor .sum) t (effectiveAxes absolute noopAttr t.rank)
              (getSIntAttr kdAttr 1 != 0)).shape,
           (reduceT (combFor .sum) t (effectiveAxes absolute noopAttr t.rank)
              (getSIntAttr kdAttr 1 != 0)).data.map
             (divideBy ((reducedExtents (effectiveAxes absolute noopAttr t.rank)
                t.shape).prod : Int))⟩ ∧
    t.size / (reduceT (combFor .sum) t (effectiveAxes absolute noopAttr t.rank)
        (getSIntAttr kdAttr 1 != 0)).size =
      (reducedExtents (effectiveAxes absolute noopAttr t.rank) t.shape).prod := by
  have hprod := reducedShape_extents_prod (effectiveAxes absolute noopAttr t.rank)
    (getSIntAttr kdAttr 1 != 0) t.shape 0
  have hred : 0 < (reducedShapeAux (effectiveAxes absolute noopAttr t.rank)
      (getSIntAttr kdAttr 1 != 0) 0 t.shape).prod := by
    rcases Nat.eq_zero_or_pos ((reducedShapeAux (effectiveAxes absolute noopAttr t.rank)
        (getSIntAttr kdAttr 1 != 0) 0 t.shape).prod) with h0 | hpos
    · exfalso
      unfold Tensor.size at hne
      rw [h0, Nat.zero_mul] at hprod
      omega
    · exact hpos
  have hden : t.size / (reduceT (combFor .sum) t (effectiveAxes absolute noopAttr t.rank)
      (getSIntAttr kdAttr 1 != 0)).size =
      (reducedExtents (effectiveAxes absolute noopAttr t.rank) t.shape).prod := by
    show t.shape.prod / (reducedShapeAux (effectiveAxes absolute noopAttr t.rank)
      (getSIntAttr kdAttr 1 != 0) 0 t.shape).prod = _
    rw [← hprod]
    exact Nat.mul_div_cancel_left _ hred
  refine ⟨?_, hden⟩
  have hne' := isEmpty_false_of_ne_nil hax
  simp only [constPropReduceAxesRange, habs, hne', Bool.false_eq_true, if_false]
  have hsz : ¬(t.size = 0) := by omega
  rw [if_neg hsz]
  show Outcome.ok (reduceMeanT t _ _) = _
  simp only [reduceMeanT]
  rw [hden]

/-- Witness for C1: ReduceMean of the 2x3 tensor 1..6 along axis 1 with
keepdims = 0 divides the row sums 6 and 15 by the reduced extent 3. -/
theorem claim_C1_witness :
    constPropReduceAxesRange .mean ⟨[2, 3], [1, 2, 3, 4, 5, 6]⟩ [1] none (some 0) [2] =
      .ok ⟨[2], [2, 5]⟩ ∧
    Tensor.size ⟨[2, 3], [1, 2, 3, 4, 5, 6]⟩ /
        Tensor.size (reduceT (combFor .sum) ⟨[2, 3], [1, 2, 3, 4, 5, 6]⟩
          (effectiveAxes [1] none 2) (getSIntAttr (some 0) 1 != 0)) =
      (reducedExtents (effectiveAxes [1] none 2) [2, 3]).prod := by
  have h := claim_C1_reduceMean_sum_div ⟨[2, 3], [1, 2, 3, 4, 5, 6]⟩ [1] none (some 0)
    [2] [1] (by decide) (by decide) (by decide)
  constructor
  · rw [h.1]
    decide
  · exact h.2

theorem mem_enum_iff {α : Type} (l : List α) (p : Nat × α) :
    p ∈ l.enum ↔ l[p.1]? = some p.2 := by
  constructor
  · intro h
    obtain ⟨i, hi⟩ := List.mem_iff_getElem?.mp h
    rw [List.getElem?_enum] at hi
    cases hl : l[i]? with
    | none => rw [hl] at hi; simp at hi
    | some a =>
      rw [hl] at hi
      simp only [Option.map_some', Option.some.injEq] at hi
      rw [← hi, hl]
  · intro h
    apply List.mem_iff_getElem?.mpr
    refine ⟨p.1, ?_⟩
    rw [List.getElem?_enum, h]
    rfl

/-- C3: the ScatterND fold copies data and then, iterating the k-tuples of
indices in row-major order, overwrites the slab at each tuple's linear
position — the dot product of the tuple with the leading k data strides,
which is the row-major flat position of the element the tuple addresses
on the leading k axes of data — with the corresponding slab of updates;
at every flat position the surviving value is the one written by the
covering tuple that comes last in traversal order, or the original data
value when no tuple covers it. -/
theorem claim_C3_scatterND_last_wins (data indicesT updatesT : Tensor) (j : Nat)
    (tup : List Nat) (i : Nat)
    (hin : ∀ w ∈ scatterWrites data.shape indicesT.shape updatesT.shape
        indicesT.data updatesT.data, w.1 + w.2.length ≤ data.data.length)
    (htup : tup.length ≤ data.shape.length) :
    (scatterNDImpl data indicesT updatesT).length = data.data.length ∧
    (scatterNDImpl data indicesT updatesT)[j]? =
      (lastCoveringWrite (scatterWrites data.shape indicesT.shape updatesT.shape
          indicesT.data updatesT.data) j).elim data.data[j]?
        (fun w => w.2[j - w.1]?) ∧
    (i < (indicesT.shape.dropLast).prod →
      (scatterWrites data.shape indicesT.shape updatesT.shape indicesT.data
          updatesT.data)[i]? =
        some ((getLinearAccessIndex
            ((indicesT.data.drop (i * indicesT.shape.getLastD 0)).take
              (indicesT.shape.getLastD 0))
            ((getStrides data.shape).take (indicesT.shape.getLastD 0))).toNat,
          (updatesT.data.drop
              (i * (updatesT.shape.drop indicesT.shape.dropLast.length).prod)).take
            (updatesT.shape.drop indicesT.shape.dropLast.length).prod)) ∧
    getLinearAccessIndex (tup.map Int.ofNat)
        ((getStrides data.shape).take tup.length) =
      (flattenIdx data.shape
        (tup ++ List.replicate (data.shape.length - tup.length) 0) : Int) := by
  refine ⟨applyWrites_length _ data.data hin, applyWrites_getElem? _ data.data j hin,
    ?_, lin_take_strides_eq_flatten data.shape tup htup⟩
  intro hi
  simp only [scatterWrites, List.getElem?_map, List.getElem?_range hi, Option.map_some']

/-- Witness for C3: ScatterND on 2x2 zero data where both index tuples
address row 1; the write of the second (later) tuple survives, so
position (1, 0) holds 7, not 5. -/
theorem claim_C3_witness :
    (scatterNDImpl ⟨[2, 2], [0, 0, 0, 0]⟩ ⟨[2, 1], [1, 1]⟩ ⟨[2, 2], [5, 6, 7, 8]⟩).length =
      4 ∧
    (scatterNDImpl ⟨[2, 2], [0, 0, 0, 0]⟩ ⟨[2, 1], [1, 1]⟩ ⟨[2, 2], [5, 6, 7, 8]⟩)[2]? =
      some 7 := by
  have h := claim_C3_scatterND_last_wins ⟨[2, 2], [0, 0, 0, 0]⟩ ⟨[2, 1], [1, 1]⟩
    ⟨[2, 2], [5, 6, 7, 8]⟩ 2 [1] 1 (by decide) (by decide)
  refine ⟨h.1, ?_⟩
  rw [h.2.1]
  decide

/-- C4 counterexample: Gather on data of shape 2 with the constant index
5, which is out of [0, 2) after normalisation, still produces a constant
— the fold has no failure path and silently reads out of bounds —
refuting the claim that such an index is a hard error that makes the
fold fail. -/
theorem claim_C4_counterexample :
    ¬((if (5 : Int) < 0 then (5 : Int) + 2 else 5) < (2 : Int)) ∧
    (constPropGather ⟨[2], [10, 20]⟩ ⟨[1], [5]⟩ [1] 0).isOk = true := by
  exact ⟨by decide, rfl⟩

theorem gatherWrites_mem (input : Tensor) (outputShape : List Nat) (axis : Nat)
    (indices : List Int) (w : Nat × List Int) :
    w ∈ gatherWrites input outputShape axis indices ↔
      ∃ (m : Nat) (idx : Int) (b : Nat), indices[m]? = some idx ∧
        b < outputShape.prod / (outputShape.drop axis).prod ∧
        w = (b * (outputShape.drop axis).prod +
              m * ((input.shape.drop axis).prod / input.shape.getD axis 0),
            (input.data.drop (b * (input.shape.drop axis).prod +
                (if idx < 0 then idx + (input.shape.getD axis 0 : Int) else idx).toNat *
                  ((input.shape.drop axis).prod / input.shape.getD axis 0))).take
              ((input.shape.drop axis).prod / input.shape.getD axis 0)) := by
  simp only [gatherWrites, List.mem_flatMap, List.mem_map, List.mem_range]
  constructor
  · rintro ⟨mi, hmi, b, hb, rfl⟩
    exact ⟨mi.1, mi.2, b, (mem_enum_iff _ _).mp hmi, hb, rfl⟩
  · rintro ⟨m, idx, b, hm, hb, rfl⟩
    exact ⟨(m, idx), (mem_enum_iff _ _).mpr hm, b, hb, rfl⟩

/-- C4, amended: the Gather fold normalises the axis attribute and each
negative index i to i + axisSize, and under the structural hypotheses the
source maintains (the assert outputStride = indices.size * len, exact
divisibility of the products, the outer blocks fitting the input) every
produced axis-slab equals the input's slab at the normalised index,
provided every normalised index lies in [0, axisSize); out-of-range
indices are never checked — the fold silently reads out of bounds instead
of failing. -/
theorem claim_C4_amended_gather (input indicesT : Tensor) (outputShape : List Nat)
    (axisAttr : Int) (axis len : Nat)
    (haxis : (if axisAttr < 0 then axisAttr + (input.rank : Int) else axisAttr).toNat =
      axis)
    (haxpos : 0 < input.shape.getD axis 0)
    (hlen : (input.shape.drop axis).prod = input.shape.getD axis 0 * len)
    (hOS : (outputShape.drop axis).prod = indicesT.data.length * len)
    (hOC : outputShape.prod =
      outputShape.prod / (outputShape.drop axis).prod * (outputShape.drop axis).prod)
    (hIC : outputShape.prod / (outputShape.drop axis).prod *
        (input.shape.drop axis).prod ≤ input.data.length)
    (hidx : ∀ idx ∈ indicesT.data,
      0 ≤ (if idx < 0 then idx + (input.shape.getD axis 0 : Int) else idx) ∧
      (if idx < 0 then idx + (input.shape.getD axis 0 : Int) else idx) <
        (input.shape.getD axis 0 : Int)) :
    constPropGather input indicesT outputShape axisAttr =
      .ok ⟨outputShape, constPropGatherImpl input outputShape axis indicesT.data⟩ ∧
    ∀ (m : Nat) (idx : Int) (b r : Nat), indicesT.data[m]? = some idx →
      b < outputShape.prod / (outputShape.drop axis).prod → r < len →
      (constPropGatherImpl input outputShape axis
          indicesT.data)[b * (outputShape.drop axis).prod + m * len + r]? =
        input.data[b * (input.shape.drop axis).prod +
          (if idx < 0 then idx + (input.shape.getD axis 0 : Int) else idx).toNat * len +
            r]? := by
  have hlen' : (input.shape.drop axis).prod / input.shape.getD axis 0 = len := by
    rw [hlen]
    exact Nat.mul_div_cancel_left len haxpos
  constructor
  · simp only [constPropGather, haxis]
  · intro m idx b r hm hb hr
    have hwlen : ∀ w ∈ gatherWrites input outputShape axis indicesT.data,
        w.2.length = len ∧ w.1 + len ≤ outputShape.prod := by
      intro w hw
      obtain ⟨m', idx', b', hm', hb', rfl⟩ :=
        (gatherWrites_mem input outputShape axis indicesT.data w).mp hw
      have hm'lt : m' < indicesT.data.length := (List.getElem?_eq_some.mp hm').1
      have hmem' : idx' ∈ indicesT.data := List.getElem?_mem hm'
      have hadj' :
          (if idx' < 0 then idx' + (input.shape.getD axis 0 : Int) else idx').toNat <
            input.shape.getD axis 0 := by
        obtain ⟨h0, h1⟩ := hidx idx' hmem'
        omega
      rw [hlen']
      have hslab : b' * (input.shape.drop axis).prod +
          (if idx' < 0 then idx' + (input.shape.getD axis 0 : Int) else idx').toNat *
            len + len ≤ input.data.length := by
        calc b' * (input.shape.drop axis).prod +
            (if idx' < 0 then idx' + (input.shape.getD axis 0 : Int) else idx').toNat *
              len + len
            ≤ b' * (input.shape.drop axis).prod + input.shape.getD axis 0 * len := by
              have h1 : ((if idx' < 0 then idx' + (input.shape.getD axis 0 : Int)
                  else idx').toNat + 1) * len ≤ input.shape.getD axis 0 * len :=
                Nat.mul_le_mul_right len hadj'
              have h2 : ((if idx' < 0 then idx' + (input.shape.getD axis 0 : Int)
                  else idx').toNat + 1) * len =
                  (if idx' < 0 then idx' + (input.shape.getD axis 0 : Int)
                    else idx').toNat * len + len := by ring
              omega
          _ = (b' + 1) * (input.shape.drop axis).prod := by rw [hlen]; ring
          _ ≤ outputShape.prod / (outputShape.drop axis).prod *
              (input.shape.drop axis).prod :=
            Nat.mul_le_mul_right _ hb'
          _ ≤ input.data.length := hIC
      constructor
      · rw [List.length_take, List.length_drop]
        omega
      · calc b' * (outputShape.drop axis).prod + m' * len + len
            ≤ b' * (outputShape.drop axis).prod + indicesT.data.length * len := by
              have h1 : (m' + 1) * len ≤ indicesT.data.length * len :=
                Nat.mul_le_mul_right len hm'lt
              have h2 : (m' + 1) * len = m' * len + len := by ring
              omega
          _ = (b' + 1) * (outputShape.drop axis).prod := by rw [hOS]; ring
          _ ≤ outputShape.prod / (outputShape.drop axis).prod *
              (outputShape.drop axis).prod :=
            Nat.mul_le_mul_right _ hb'
          _ = outputShape.prod := hOC.symm
    have hin : ∀ w ∈ gatherWrites input outputShape axis indicesT.data,
        w.1 + w.2.length ≤ (List.replicate outputShape.prod (0 : Int)).length := by
      intro w hw
      obtain ⟨h1, h2⟩ := hwlen w hw
      rw [List.length_replicate, h1]
      exact h2
    have hmem0 : (b * (outputShape.drop axis).prod + m * len,
        (input.data.drop (b * (input.shape.drop axis).prod +
            (if idx < 0 then idx + (input.shape.getD axis 0 : Int) else idx).toNat *
              len)).take len) ∈ gatherWrites input outputShape axis indicesT.data := by
      apply (gatherWrites_mem input outputShape axis indicesT.data _).mpr
      exact ⟨m, idx, b, hm, hb, by rw [hlen']⟩
    have hmlt : m < indicesT.data.length := (List.getElem?_eq_some.mp hm).1
    have huniq : ∀ w ∈ gatherWrites input outputShape axis indicesT.data,
        (decide (covers w (b * (outputShape.drop axis).prod + m * len + r))) = true →
        w = (b * (outputShape.drop axis).prod + m * len,
          (input.data.drop (b * (input.shape.drop axis).prod +
              (if idx < 0 then idx + (input.shape.getD axis 0 : Int) else idx).toNat *
                len)).take len) := by
      intro w hw hcov
      obtain ⟨hl, _⟩ := hwlen w hw
      obtain ⟨m', idx', b', hm', hb', rfl⟩ :=
        (gatherWrites_mem input outputShape axis indicesT.data w).mp hw
      have hcov' := of_decide_eq_true hcov
      obtain ⟨hle, hlt⟩ := hcov'
      simp only at hle hlt
      rw [hl] at hlt
      have hm'lt : m' < indicesT.data.length := (List.getElem?_eq_some.mp hm').1
      rw [hlen'] at hle hlt ⊢
      have hr'lt : b * (outputShape.drop axis).prod + m * len + r -
          (b' * (outputShape.drop axis).prod + m' * len) < len := by omega
      have heq : b' * (indicesT.data.length * len) + m' * len +
          (b * (outputShape.drop axis).prod + m * len + r -
            (b' * (outputShape.drop axis).prod + m' * len)) =
          b * (indicesT.data.length * len) + m * len + r := by
        rw [← hOS]
        omega
      obtain ⟨hbb, hmm, _⟩ := decompose_unique len indicesT.data.length b' m' _ b m r
        hm'lt hr'lt hmlt hr heq
      subst hbb
      subst hmm
      rw [hm] at hm'
      injection hm' with hm''
      rw [hm'']
    show (applyWrites (List.replicate outputShape.prod 0)
        (gatherWrites input outputShape axis indicesT.data))[
          b * (outputShape.drop axis).prod + m * len + r]? = _
    rw [applyWrites_getElem? _ _ _ hin]
    unfold lastCoveringWrite
    rw [filter_eq_replicate_of_unique _ _ _ huniq,
      getLast?_replicate_pos _ _ (List.countP_pos_iff.mpr ⟨_, hmem0, by
        apply decide_eq_true
        constructor
        · omega
        · rw [(hwlen _ hmem0).1]
          omega⟩)]
    simp only [Option.elim]
    have hjr : b * (outputShape.drop axis).prod + m * len + r -
        (b * (outputShape.drop axis).prod + m * len) = r := by omega
    rw [hjr, List.getElem?_take, if_pos hr, List.getElem?_drop]

/-- Witness for C4: Gather of the 3x2 tensor 10..60 with indices 2, 0, -1
along axis 0; the index -1 normalises to 2 and the produced row at output
block position 2 is the input's row 2, element (2, 0) being 50. -/
theorem claim_C4_witness :
    constPropGather ⟨[3, 2], [10, 20, 30, 40, 50, 60]⟩ ⟨[3], [2, 0, -1]⟩ [3, 2] 0 =
      .ok ⟨[3, 2], constPropGatherImpl ⟨[3, 2], [10, 20, 30, 40, 50, 60]⟩ [3, 2] 0
        [2, 0, -1]⟩ ∧
    (constPropGatherImpl ⟨[3, 2], [10, 20, 30, 40, 50, 60]⟩ [3, 2] 0
        [2, 0, -1])[0 * 6 + 2 * 2 + 0]? =
      some 50 := by
  have h := claim_C4_amended_gather ⟨[3, 2], [10, 20, 30, 40, 50, 60]⟩ ⟨[3], [2, 0, -1]⟩
    [3, 2] 0 0 2 (by decide) (by decide) (by decide) (by decide) (by decide) (by decide)
    (by decide)
  refine ⟨h.1, ?_⟩
  have h2 := h.2 2 (-1) 0 0 (by decide) (by decide) (by decide)
  rw [show (0 * 6 + 2 * 2 + 0 : Nat) =
    0 * (([3, 2] : List Nat).drop 0).prod + 2 * 2 + 0 from by decide]
  rw [h2]
  decide

end ConstProp
